import Mathlib

/-!
Verification of the departure-time normalization and classification core of
`backend.py` (Queens Park Station departure scraper).

The Python functions `parse_departure_time`, the per-row record loop of
`scrape_transperth`, and the partition/sort/truncate logic of the
`/api/departures` handler `get_departures` are embedded as executable Lean
functions below, following the source line by line.  Strings are modelled as
`String`/`List Char`; Python's arbitrary-precision integers as `Int`/`Nat`;
the ambient wall clock `datetime.now()` is passed explicitly as the number of
microseconds since local midnight; regular-expression searches are embedded as
explicit leftmost-match scanning functions; exceptions raised inside
`parse_departure_time` (`datetime.replace` rejects hour > 23 or minute > 59
with `ValueError`) are modelled by a dedicated result constructor.
-/

open scoped List

namespace TrainDepartures

/-! ### Character-level helpers for Python string operations -/

/-- Python `str.lower()` on a list of characters (ASCII case folding, which is
what the inputs here exercise). -/
def pyLower (l : List Char) : List Char := l.map Char.toLower

/-- Python `str.strip()` on a list of characters: remove whitespace from both
ends. -/
def pyStrip (l : List Char) : List Char :=
  ((l.dropWhile Char.isWhitespace).reverse.dropWhile Char.isWhitespace).reverse

/-- Python's substring test `pat in hay` (contiguous containment). -/
def containsSub (pat : List Char) : List Char → Bool
  | [] => pat.isEmpty
  | c :: t => pat.isPrefixOf (c :: t) || containsSub pat t

/-- Numeric value of a decimal digit character. -/
def digitVal (c : Char) : Nat := c.toNat - 48

/-- Python `int(...)` applied to a run of decimal digit characters. -/
def digitsToNat (ds : List Char) : Nat :=
  ds.foldl (fun n c => 10 * n + digitVal c) 0

/-- The leftmost match of the regex `(\d+)`: the first maximal run of decimal
digits in the input, if any digit occurs. -/
def firstDigitRun : List Char → Option (List Char)
  | [] => none
  | c :: t => if c.isDigit then some (c :: t.takeWhile Char.isDigit) else firstDigitRun t

/-- Attempt to match the regex `(\d{1,2}):(\d{2})` anchored at the start of
`l`, with the greedy two-digit-hour alternative tried first (as Python's
backtracking engine does).  Returns `(hour, minute)` on success. -/
def clockAt (l : List Char) : Option (Nat × Nat) :=
  match l with
  | a :: b :: c :: d :: e :: _ =>
    if a.isDigit && b.isDigit && c == ':' && d.isDigit && e.isDigit then
      some (10 * digitVal a + digitVal b, 10 * digitVal d + digitVal e)
    else if a.isDigit && b == ':' && c.isDigit && d.isDigit then
      some (digitVal a, 10 * digitVal c + digitVal d)
    else none
  | [a, b, c, d] =>
    if a.isDigit && b == ':' && c.isDigit && d.isDigit then
      some (digitVal a, 10 * digitVal c + digitVal d)
    else none
  | _ => none

/-- The leftmost match of `re.search(r'(\d{1,2}):(\d{2})', ...)`. -/
def clockSearch : List Char → Option (Nat × Nat)
  | [] => none
  | c :: t =>
    match clockAt (c :: t) with
    | some p => some p
    | none => clockSearch t

/-! ### The time normalizer: `parse_departure_time` (backend.py lines 29-54) -/

/-- Result of a call to the Python function `parse_departure_time`: a normal
return of `None` or of an integer, or a raised exception. -/
inductive PyResult where
  | val : Option Int → PyResult
  | exn : PyResult
deriving DecidableEq

/-- Microseconds in one day, the amount added by `timedelta(days=1)`. -/
def microsPerDay : Nat := 86400000000

/-- Embedding of `parse_departure_time(time_str)` from backend.py lines 29-54.
`nowMicros` is `datetime.now()` as microseconds since local midnight.  The
division in the clock branch models `int((departure - now).total_seconds() / 60)`
by exact integer arithmetic truncated toward zero (`Int.tdiv`). -/
def parse_departure_time (time_str : String) (nowMicros : Nat) : PyResult :=
  -- time_str = time_str.strip().lower()
  let t : List Char := pyLower (pyStrip time_str.data)
  -- if 'now' in time_str or 'due' in time_str: return 0
  if containsSub "now".data t || containsSub "due".data t then
    .val (some 0)
  else
    -- match = re.search(r'(\d+)', time_str); if match: return int(match.group(1))
    match firstDigitRun t with
    | some run => .val (some (digitsToNat run : Int))
    | none =>
      -- time_match = re.search(r'(\d{1,2}):(\d{2})', time_str)
      match clockSearch t with
      | some (hour, minute) =>
        -- departure = now.replace(hour=hour, minute=minute, second=0, microsecond=0)
        -- raises ValueError when hour > 23 or minute > 59
        if hour ≤ 23 ∧ minute ≤ 59 then
          let dep : Int := ((hour * 60 + minute) * 60000000 : Nat)
          let nowI : Int := (nowMicros : Int)
          -- if departure < now: departure += timedelta(days=1)
          let dep' : Int := if dep < nowI then dep + (microsPerDay : Int) else dep
          -- diff = (departure - now).total_seconds() / 60; return int(diff)
          .val (some ((dep' - nowI).tdiv 60000000))
        else .exn
      | none =>
        -- return None
        .val none

/-- The simplified function of claim C3: lowercase/strip, return 0 on a
"now"/"due" token, else the first digit run if any digit occurs, else `None`.
The clock-time branch of the source is absent. -/
def parse_simplified (time_str : String) : Option Int :=
  let t : List Char := pyLower (pyStrip time_str.data)
  if containsSub "now".data t || containsSub "due".data t then
    some 0
  else
    match firstDigitRun t with
    | some run => some (digitsToNat run : Int)
    | none => none

/-! ### Basic lemmas about the string helpers -/

theorem containsSub_iff (pat hay : List Char) : containsSub pat hay = true ↔ pat <:+: hay := by
  induction hay with
  | nil => simp [containsSub, List.isEmpty_iff]
  | cons c t ih =>
    simp [containsSub, ih, List.infix_cons_iff, Bool.or_eq_true]

theorem firstDigitRun_eq_none_iff (l : List Char) :
    firstDigitRun l = none ↔ ∀ c ∈ l, c.isDigit = false := by
  induction l with
  | nil => simp [firstDigitRun]
  | cons c t ih =>
    by_cases h : c.isDigit <;> simp [firstDigitRun, h, ih]

theorem clockAt_eq_none_of_head {c : Char} (t : List Char) (hc : c.isDigit = false) :
    clockAt (c :: t) = none := by
  rcases t with _ | ⟨b, t⟩
  · rfl
  rcases t with _ | ⟨d, t⟩
  · rfl
  rcases t with _ | ⟨e, t⟩
  · rfl
  rcases t with _ | ⟨f, t⟩ <;> simp [clockAt, hc]

theorem clockSearch_eq_none {l : List Char} (h : ∀ c ∈ l, c.isDigit = false) :
    clockSearch l = none := by
  induction l with
  | nil => rfl
  | cons c t ih =>
    have hc : c.isDigit = false := h c (by simp)
    have ht : clockSearch t = none := ih (fun x hx => h x (by simp [hx]))
    simp [clockSearch, clockAt_eq_none_of_head t hc, ht]

/-- The clock-time branch of `parse_departure_time` is unreachable: any string
the clock regex could match contains a digit, so the bare-digit regex has
already fired.  Consequently the function agrees with `parse_simplified`
everywhere and never raises. -/
theorem parse_eq_simplified (s : String) (nowMicros : Nat) :
    parse_departure_time s nowMicros = .val (parse_simplified s) := by
  unfold parse_departure_time parse_simplified
  by_cases hc : (containsSub "now".data (pyLower (pyStrip s.data)) ||
      containsSub "due".data (pyLower (pyStrip s.data))) = true
  · simp [hc]
  · simp only [Bool.not_eq_true] at hc
    cases hrun : firstDigitRun (pyLower (pyStrip s.data)) with
    | some run => simp [hc, hrun]
    | none =>
      have hns : clockSearch (pyLower (pyStrip s.data)) = none :=
        clockSearch_eq_none ((firstDigitRun_eq_none_iff _).mp hrun)
      simp [hc, hrun, hns]

/-! ### Data model for the departure pipeline -/

/-- The fields extracted from one `<tr>` row of the station-status table by
the HTML collaborator, before any validation (backend.py lines 140-172). -/
structure RawRow where
  time_text : String
  destination_text : String
  platform_text : String
  stops_text : String
deriving DecidableEq

/-- One departure dictionary as appended in backend.py lines 177-185. -/
structure Departure where
  platform : String
  destination : String
  time_display : String
  minutes : Int
  pattern : String
  stops : String
  line : String
deriving DecidableEq

/-- The per-row body of the loop in `scrape_transperth` (backend.py lines
174-185): parse the time, then keep the record only when the parse produced a
number and the destination text is non-empty (`if minutes is not None and
destination_text:`).  A raised exception inside the row is caught by the
row-level `except` and drops the row, exactly as a failed check does. -/
def processRow (r : RawRow) (line_name : String) (nowMicros : Nat) : Option Departure :=
  match parse_departure_time r.time_text nowMicros with
  | .val (some m) =>
    if r.destination_text ≠ "" then
      some { platform := r.platform_text, destination := r.destination_text,
             time_display := r.time_text, minutes := m, pattern := "W",
             stops := r.stops_text, line := line_name }
    else none
  | _ => none

/-- All rows of the table processed in order, invalid rows dropped. -/
def processRows (rows : List RawRow) (line_name : String) (nowMicros : Nat) : List Departure :=
  rows.filterMap (fun r => processRow r line_name nowMicros)

/-- Outcome of the upstream fetch attempted by `scrape_transperth`:
either a page whose station-status table yields the given rows, a page
without the expected table/tbody, or a complete fetch failure (network
error, timeout after both retries, or a non-success HTTP status raised by
`raise_for_status`). -/
inductive FetchOutcome where
  | ok : List RawRow → FetchOutcome
  | noTable : FetchOutcome
  | failure : FetchOutcome
deriving DecidableEq

/-- Embedding of `scrape_transperth` (backend.py lines 85-199): every failure
path (`except` clauses of the retry loop, missing table, missing tbody,
network or processing errors) executes `return []`; only a successfully
fetched and parsed table reaches the row loop. -/
def scrape_transperth (o : FetchOutcome) (line_name : String) (nowMicros : Nat) : List Departure :=
  match o with
  | .ok rows => processRows rows line_name nowMicros
  | .noTable => []
  | .failure => []

/-- Direction test from backend.py lines 213-221:
`'perth' in d['destination'].lower()`. -/
def isPerthBound (d : Departure) : Bool :=
  containsSub "perth".data (pyLower d.destination.data)

/-- The toward-hub partition (`perth_departures` before sorting). -/
def perthPartition (all : List Departure) : List Departure :=
  all.filter (fun d => isPerthBound d)

/-- The away-from-hub partition (`south_departures` before sorting). -/
def southPartition (all : List Departure) : List Departure :=
  all.filter (fun d => !isPerthBound d)

/-- The sort order used by `perth_departures.sort(key=lambda x: x['minutes'])`:
ascending on the `minutes` field.  Python's `list.sort` is stable, which
`List.mergeSort` models. -/
def leMin (a b : Departure) : Bool := decide (a.minutes ≤ b.minutes)

/-- The partition/sort/truncate core of the `/api/departures` handler
(backend.py lines 213-229): split by the hub token, stable-sort each side by
`minutes`, return the first 10 of each. -/
def classify_and_rank (all : List Departure) : List Departure × List Departure :=
  (((perthPartition all).mergeSort leMin).take 10,
   ((southPartition all).mergeSort leMin).take 10)

/-- The JSON body and HTTP status produced by the `/api/departures` route. -/
structure ApiResponse where
  status : Nat
  success : Bool
  perth : List Departure
  south : List Departure
  error_msg : Option String
  last_updated : Option String
deriving DecidableEq

/-- Embedding of the `get_departures` handler (backend.py lines 201-239).
The `except` clause that would produce `{'success': False, 'error': ...}`
with status 500 fires only when an exception escapes the handler body;
`scrape_transperth` catches every fetch error internally and returns `[]`,
and the remaining body (partition, sort, slice, jsonify) raises nothing, so
every modelled execution takes the success path. -/
def get_departures (o : FetchOutcome) (nowMicros : Nat) (nowIso : String) : ApiResponse :=
  let all := scrape_transperth o "Queens Park" nowMicros
  let pair := classify_and_rank all
  { status := 200, success := true, perth := pair.1, south := pair.2,
    error_msg := none, last_updated := some nowIso }

/-- The stable full sort named by the specification: insertion sort ascending
on `minutes`, the canonical stable sorting algorithm, used as the reference
against which the code's sort-then-truncate output is compared. -/
def stableSortSpec (l : List Departure) : List Departure :=
  List.insertionSort (fun a b => a.minutes ≤ b.minutes) l

/-! ### Order facts about the minutes key -/

theorem leMin_trans : ∀ a b c : Departure, leMin a b → leMin b c → leMin a c := by
  intro a b c hab hbc
  simp only [leMin, decide_eq_true_eq] at *
  omega

theorem leMin_total : ∀ a b : Departure, leMin a b || leMin b a := by
  intro a b
  simp only [leMin, Bool.or_eq_true, decide_eq_true_eq]
  omega

instance : IsTotal Departure (fun a b => a.minutes ≤ b.minutes) :=
  ⟨fun a b => Int.le_total a.minutes b.minutes⟩

instance : IsTrans Departure (fun a b => a.minutes ≤ b.minutes) :=
  ⟨fun _ _ _ hab hbc => le_trans hab hbc⟩

/-! ### Stability of the sorts, expressed through key-filtering -/

/-- Elements of a fixed `minutes` value keep their input order through the
code's `mergeSort`. -/
theorem mergeSort_filter_minutes (l : List Departure) (m : Int) :
    (l.mergeSort leMin).filter (fun d => d.minutes == m) =
      l.filter (fun d => d.minutes == m) := by
  have hself : (l.filter (fun d => d.minutes == m)).filter (fun d => d.minutes == m) =
      l.filter (fun d => d.minutes == m) :=
    List.filter_eq_self.mpr (fun a ha => (List.mem_filter.mp ha).2)
  have hsub : l.filter (fun d => d.minutes == m) <+ l.mergeSort leMin := by
    apply List.sublist_mergeSort leMin_trans leMin_total
    · apply List.pairwise_of_forall_mem_list
      intro a ha b hb
      have ha' : a.minutes = m := by simpa using (List.mem_filter.mp ha).2
      have hb' : b.minutes = m := by simpa using (List.mem_filter.mp hb).2
      simp [leMin, ha', hb']
    · exact List.filter_sublist l
  have hsub2 : l.filter (fun d => d.minutes == m) <+
      (l.mergeSort leMin).filter (fun d => d.minutes == m) := by
    have := hsub.filter (fun d => d.minutes == m)
    rwa [hself] at this
  have hperm : (l.mergeSort leMin).filter (fun d => d.minutes == m) ~
      l.filter (fun d => d.minutes == m) :=
    (List.mergeSort_perm l leMin).filter _
  exact (hsub2.eq_of_length hperm.length_eq.symm).symm

/-- Elements of a fixed `minutes` value keep their input order through the
specification's stable insertion sort. -/
theorem stableSortSpec_filter_minutes (l : List Departure) (m : Int) :
    (stableSortSpec l).filter (fun d => d.minutes == m) =
      l.filter (fun d => d.minutes == m) := by
  have hself : (l.filter (fun d => d.minutes == m)).filter (fun d => d.minutes == m) =
      l.filter (fun d => d.minutes == m) :=
    List.filter_eq_self.mpr (fun a ha => (List.mem_filter.mp ha).2)
  have hsub : l.filter (fun d => d.minutes == m) <+ stableSortSpec l := by
    apply List.sublist_insertionSort
    · apply List.pairwise_of_forall_mem_list
      intro a ha b hb
      have ha' : a.minutes = m := by simpa using (List.mem_filter.mp ha).2
      have hb' : b.minutes = m := by simpa using (List.mem_filter.mp hb).2
      simp [ha', hb']
    · exact List.filter_sublist l
  have hsub2 : l.filter (fun d => d.minutes == m) <+
      (stableSortSpec l).filter (fun d => d.minutes == m) := by
    have := hsub.filter (fun d => d.minutes == m)
    rwa [hself] at this
  have hperm : (stableSortSpec l).filter (fun d => d.minutes == m) ~
      l.filter (fun d => d.minutes == m) :=
    (List.perm_insertionSort _ l).filter _
  exact (hsub2.eq_of_length hperm.length_eq.symm).symm

/-- A sorted permutation whose equal-`minutes` runs agree with another such
list is equal to it: stable sorts are unique. -/
theorem stable_sorted_unique :
    ∀ (u v : List Departure), u ~ v →
      u.Pairwise (fun a b => a.minutes ≤ b.minutes) →
      v.Pairwise (fun a b => a.minutes ≤ b.minutes) →
      (∀ m : Int, u.filter (fun d => d.minutes == m) = v.filter (fun d => d.minutes == m)) →
      u = v
  | [], v, hp, _, _, _ => (hp.nil_eq).symm ▸ rfl
  | a :: u', [], hp, _, _, _ => absurd hp.length_eq (by simp)
  | a :: u', b :: v', hp, hu, hv, hf => by
    have hab : a.minutes = b.minutes := by
      have hbu : b ∈ a :: u' := hp.symm.subset (by simp)
      have hav : a ∈ b :: v' := hp.subset (by simp)
      have h1 : a.minutes ≤ b.minutes := by
        rcases List.mem_cons.mp hbu with h | h
        · rw [h]
        · exact (List.pairwise_cons.mp hu).1 b h
      have h2 : b.minutes ≤ a.minutes := by
        rcases List.mem_cons.mp hav with h | h
        · rw [h]
        · exact (List.pairwise_cons.mp hv).1 a h
      omega
    have hfm := hf a.minutes
    have h1 : (fun d : Departure => d.minutes == a.minutes) a = true := by simp
    have h2 : (fun d : Departure => d.minutes == a.minutes) b = true := by simp [hab]
    rw [List.filter_cons, List.filter_cons, if_pos h1, if_pos h2] at hfm
    injection hfm with hae htl
    subst hae
    have htail : u' = v' := by
      apply stable_sorted_unique u' v' hp.cons_inv
        (List.pairwise_cons.mp hu).2 (List.pairwise_cons.mp hv).2
      intro m
      by_cases hm : a.minutes = m
      · subst hm
        exact htl
      · have hfm' := hf m
        have hne : ¬((fun d : Departure => d.minutes == m) a = true) := by simpa using hm
        rwa [List.filter_cons, List.filter_cons, if_neg hne, if_neg hne] at hfm'
    rw [htail]

/-- The code's `mergeSort` on the `minutes` key coincides with the
specification's stable full sort. -/
theorem mergeSort_eq_stableSortSpec (l : List Departure) :
    l.mergeSort leMin = stableSortSpec l := by
  apply stable_sorted_unique
  · exact (List.mergeSort_perm l leMin).trans (List.perm_insertionSort _ l).symm
  · exact (List.sorted_mergeSort leMin_trans leMin_total l).imp
      (fun h => by simpa [leMin] using h)
  · exact List.sorted_insertionSort _ l
  · intro m
    rw [mergeSort_filter_minutes, stableSortSpec_filter_minutes]

/-! ### Character facts: case folding preserves whitespace and digit status -/

theorem toLower_eq_of_isWhitespace {c : Char} (h : c.isWhitespace = true) : c.toLower = c := by
  have hc : ((c = ' ' ∨ c = '\t') ∨ c = '\x0d') ∨ c = '\n' := by
    simpa [Char.isWhitespace] using h
  rcases hc with ((rfl | rfl) | rfl) | rfl <;> rfl

theorem isWhitespace_toLower {c : Char} (h : c.isWhitespace = true) :
    (c.toLower).isWhitespace = true := by
  rw [toLower_eq_of_isWhitespace h]
  exact h

theorem toNat_ofNat_of_valid {n : Nat} (h : n.isValidChar) : (Char.ofNat n).toNat = n := by
  rw [Char.ofNat, dif_pos h]
  rfl

theorem isDigit_iff_toNat {c : Char} : c.isDigit = true ↔ 48 ≤ c.toNat ∧ c.toNat ≤ 57 := by
  simp only [Char.isDigit, Bool.and_eq_true, decide_eq_true_eq, ge_iff_le,
    UInt32.le_def, BitVec.le_def]
  rfl

theorem isDigit_toLower (c : Char) : (c.toLower).isDigit = c.isDigit := by
  by_cases h : 65 ≤ c.toNat ∧ c.toNat ≤ 90
  · have hval : Nat.isValidChar (c.toNat + 32) := Or.inl (by omega)
    have htl : c.toLower = Char.ofNat (c.toNat + 32) := by
      simp only [Char.toLower]
      rw [if_pos h]
    rw [htl]
    have h1 : (Char.ofNat (c.toNat + 32)).isDigit = false := by
      cases hd : (Char.ofNat (c.toNat + 32)).isDigit
      · rfl
      · have := isDigit_iff_toNat.mp hd
        rw [toNat_ofNat_of_valid hval] at this
        omega
    have h2 : c.isDigit = false := by
      cases hd : c.isDigit
      · rfl
      · have := isDigit_iff_toNat.mp hd
        omega
    rw [h1, h2]
  · simp only [Char.toLower]
    rw [if_neg h]

/-! ### Decomposing `strip` and moving containment across it -/

theorem strip_decomp (l : List Char) :
    ∃ w₁ w₂ : List Char, l = w₁ ++ pyStrip l ++ w₂ ∧
      (∀ c ∈ w₁, c.isWhitespace = true) ∧ ∀ c ∈ w₂, c.isWhitespace = true := by
  have h1 : l.takeWhile Char.isWhitespace ++ l.dropWhile Char.isWhitespace = l :=
    List.takeWhile_append_dropWhile Char.isWhitespace l
  have h2 : (l.dropWhile Char.isWhitespace).reverse.takeWhile Char.isWhitespace ++
      (l.dropWhile Char.isWhitespace).reverse.dropWhile Char.isWhitespace =
      (l.dropWhile Char.isWhitespace).reverse :=
    List.takeWhile_append_dropWhile Char.isWhitespace _
  have h3 := congrArg List.reverse h2
  rw [List.reverse_append, List.reverse_reverse] at h3
  refine ⟨l.takeWhile Char.isWhitespace,
    ((l.dropWhile Char.isWhitespace).reverse.takeWhile Char.isWhitespace).reverse,
    ?_, ?_, ?_⟩
  · rw [pyStrip, List.append_assoc, h3, h1]
  · exact fun c hc => List.mem_takeWhile_imp hc
  · intro c hc
    rw [List.mem_reverse] at hc
    exact List.mem_takeWhile_imp hc

theorem mem_pyStrip {c : Char} {l : List Char} (h : c ∈ pyStrip l) : c ∈ l := by
  simp only [pyStrip, List.mem_reverse] at h
  have h1 := (List.dropWhile_sublist _).subset h
  rw [List.mem_reverse] at h1
  exact (List.dropWhile_sublist _).subset h1

theorem pyLower_ws {w : List Char} (hw : ∀ c ∈ w, c.isWhitespace = true) :
    ∀ c ∈ pyLower w, c.isWhitespace = true := by
  intro c hc
  obtain ⟨c₀, hc₀, rfl⟩ := List.mem_map.mp hc
  exact isWhitespace_toLower (hw c₀ hc₀)

/-- A non-whitespace pattern that occurs in `a ++ b` with `a` all whitespace
occurs in `b`. -/
theorem infix_of_ws_append_left : ∀ (a : List Char) {p b : List Char}, p ≠ [] →
    (∀ c ∈ p, c.isWhitespace = false) → (∀ c ∈ a, c.isWhitespace = true) →
    p <:+: a ++ b → p <:+: b
  | [], _, _, _, _, _, h => by simpa using h
  | x :: a, p, b, hp, hpc, ha, h => by
    rcases List.infix_cons_iff.mp h with hpre | htail
    · rcases p with _ | ⟨y, p'⟩
      · exact absurd rfl hp
      · rcases List.cons_prefix_cons.mp hpre with ⟨rfl, -⟩
        have h1 : y.isWhitespace = false := hpc y (by simp)
        have h2 : y.isWhitespace = true := ha y (by simp)
        rw [h1] at h2
        exact absurd h2 (by simp)
    · exact infix_of_ws_append_left a hp hpc (fun c hc => ha c (by simp [hc])) htail

/-- A non-whitespace pattern that occurs in `b ++ c` with `c` all whitespace
occurs in `b`. -/
theorem infix_of_ws_append_right {p b c : List Char} (hp : p ≠ [])
    (hpc : ∀ x ∈ p, x.isWhitespace = false) (hc : ∀ x ∈ c, x.isWhitespace = true)
    (h : p <:+: b ++ c) : p <:+: b := by
  have h' : p.reverse <:+: c.reverse ++ b.reverse := by
    rw [← List.reverse_append]
    exact List.reverse_infix.mpr h
  have h'' := infix_of_ws_append_left c.reverse (by simpa using hp)
      (fun x hx => hpc x (List.mem_reverse.mp hx))
      (fun x hx => hc x (List.mem_reverse.mp hx)) h'
  exact List.reverse_infix.mp h''

/-- Containment of a non-whitespace pattern survives the `strip` performed by
`parse_departure_time`: presence in the lowercased input implies presence in
the lowercased stripped input. -/
theorem contains_strip_lower {s : String} {pat : List Char} (hp : pat ≠ [])
    (hpc : ∀ c ∈ pat, c.isWhitespace = false)
    (h : containsSub pat (pyLower s.data) = true) :
    containsSub pat (pyLower (pyStrip s.data)) = true := by
  rw [containsSub_iff] at h ⊢
  obtain ⟨w₁, w₂, hdec, hw₁, hw₂⟩ := strip_decomp s.data
  have hsplit : pyLower s.data = pyLower w₁ ++ (pyLower (pyStrip s.data) ++ pyLower w₂) := by
    conv_lhs => rw [hdec]
    simp [pyLower, List.map_append, List.append_assoc]
  rw [hsplit] at h
  have h' := infix_of_ws_append_left (pyLower w₁) hp hpc (pyLower_ws hw₁) h
  exact infix_of_ws_append_right hp hpc (pyLower_ws hw₂) h'

/-- The converse direction: containment in the lowercased stripped input
implies containment in the lowercased input (the stripped text is an infix). -/
theorem containsSub_of_strip {s : String} {pat : List Char}
    (h : containsSub pat (pyLower (pyStrip s.data)) = true) :
    containsSub pat (pyLower s.data) = true := by
  rw [containsSub_iff] at h ⊢
  obtain ⟨w₁, w₂, hdec, -, -⟩ := strip_decomp s.data
  have hsplit : pyLower w₁ ++ pyLower (pyStrip s.data) ++ pyLower w₂ = pyLower s.data := by
    simp only [pyLower, ← List.map_append]
    exact congrArg (List.map Char.toLower) hdec.symm
  exact h.trans ⟨pyLower w₁, pyLower w₂, hsplit⟩

/-! ### Example records used to instantiate the claims -/

/-- A toward-hub departure as produced by the row loop. -/
def exPerthDep : Departure :=
  { platform := "1", destination := "Perth", time_display := "Now",
    minutes := 0, pattern := "W", stops := "All Stations", line := "Queens Park" }

/-- An away-from-hub departure as produced by the row loop. -/
def exArmadaleDep : Departure :=
  { platform := "2", destination := "Armadale", time_display := "5 min",
    minutes := 5, pattern := "W", stops := "All Stations", line := "Queens Park" }

/-- Fifteen identical toward-hub departures. -/
def ex15 : List Departure := List.replicate 15 exPerthDep

/-- A raw row with a valid time but an empty destination. -/
def exEmptyDestRow : RawRow :=
  { time_text := "Now", destination_text := "",
    platform_text := "1", stops_text := "All Stations" }

/-! ### Claim theorems -/

/-- C1: the claim says a clock-time string such as "10:45" is interpreted as a
wall-clock time (5 at now = 10:40, 1435 at now = 10:50).  The code instead
returns 10 at every `now`: the bare-digit regex `(\d+)` is consulted first and
matches the hour digits, so the clock-time branch never executes.  At
now = 10:40 (nowMicros = 38400000000) the code yields 10 where the claim
requires 5. -/
theorem c1_clock_time_not_interpreted (nowMicros : Nat) :
    parse_departure_time "10:45" nowMicros = PyResult.val (some 10) ∧
    parse_departure_time "10:45" nowMicros ≠ PyResult.val (some 5) := by
  rw [parse_eq_simplified]
  exact ⟨by decide, by decide⟩

/-- C2 counterexample: with a complete upstream fetch failure the endpoint
still answers with a success-shaped body (`success = true`, HTTP 200),
because `scrape_transperth` swallows every fetch error and returns `[]`. -/
theorem c2_counterexample :
    (get_departures FetchOutcome.failure 0 "2026-10-12T10:40:00").success = true ∧
    (get_departures FetchOutcome.failure 0 "2026-10-12T10:40:00").status = 200 := by
  exact ⟨rfl, rfl⟩

/-- C2 amended: when the upstream fetch fails entirely, the endpoint responds
with HTTP 200 and a success-shaped body whose two departure lists are empty;
the `success: false` / 500 response is reserved for exceptions escaping the
handler body, which a fetch failure never causes. -/
theorem c2_failure_gives_empty_success (nowMicros : Nat) (iso : String) :
    get_departures FetchOutcome.failure nowMicros iso =
      { status := 200, success := true, perth := [], south := [],
        error_msg := none, last_updated := some iso } := by
  simp [get_departures, classify_and_rank, scrape_transperth,
    perthPartition, southPartition]

/-- C3: `parse_departure_time` is extensionally equal to the simplified
function (0 on "now"/"due", else first digit run, else `None`); in particular
the clock-time branch is unreachable because any string matched by the clock
regex contains a digit and is claimed first by the bare-digit regex. -/
theorem c3_parse_extensionally_simplified (s : String) (nowMicros : Nat) :
    parse_departure_time s nowMicros = PyResult.val (parse_simplified s) :=
  parse_eq_simplified s nowMicros

/-- C6: whenever normalization returns a number, that number is non-negative. -/
theorem c6_normalized_minutes_nonneg (s : String) (nowMicros : Nat) (m : Int)
    (h : parse_departure_time s nowMicros = PyResult.val (some m)) : 0 ≤ m := by
  rw [parse_eq_simplified] at h
  injection h with h'
  simp only [parse_simplified] at h'
  by_cases hc : (containsSub "now".data (pyLower (pyStrip s.data)) ||
      containsSub "due".data (pyLower (pyStrip s.data))) = true
  · rw [if_pos hc] at h'
    injection h' with h''
    omega
  · rw [if_neg hc] at h'
    cases hrun : firstDigitRun (pyLower (pyStrip s.data)) with
    | some run =>
      rw [hrun] at h'
      injection h' with h''
      rw [← h'']
      exact Int.natCast_nonneg _
    | none =>
      rw [hrun] at h'
      exact Option.noConfusion h'

/-- Witness for C6 at the concrete input "5 min". -/
theorem c6_witness :
    parse_departure_time "5 min" 0 = PyResult.val (some 5) ∧ (0 : Int) ≤ 5 :=
  ⟨by decide, c6_normalized_minutes_nonneg "5 min" 0 5 (by decide)⟩

/-- C9: a string that case-insensitively contains "now" or "due" normalizes
to 0, regardless of any digits present; in particular "Now" and "Due" do. -/
theorem c9_now_due_yield_zero (s : String) (nowMicros : Nat)
    (h : containsSub "now".data (pyLower s.data) = true ∨
         containsSub "due".data (pyLower s.data) = true) :
    parse_departure_time s nowMicros = PyResult.val (some 0) ∧
    parse_departure_time "Now" nowMicros = PyResult.val (some 0) ∧
    parse_departure_time "Due" nowMicros = PyResult.val (some 0) := by
  refine ⟨?_, by rw [parse_eq_simplified]; decide, by rw [parse_eq_simplified]; decide⟩
  have hcond : (containsSub "now".data (pyLower (pyStrip s.data)) ||
      containsSub "due".data (pyLower (pyStrip s.data))) = true := by
    rcases h with h | h
    · have hx := contains_strip_lower (by decide) (by decide) h
      simp [hx]
    · have hx := contains_strip_lower (by decide) (by decide) h
      simp [hx]
  rw [parse_eq_simplified]
  simp only [parse_simplified]
  rw [if_pos hcond]

/-- Witness for C9 at the concrete input "Now". -/
theorem c9_witness :
    parse_departure_time "Now" 0 = PyResult.val (some 0) :=
  (c9_now_due_yield_zero "Now" 0 (Or.inl (by decide))).1

/-- C10: a string with no decimal digit and no case-insensitive "now"/"due"
occurrence normalizes to `None`, as do the concrete inputs "" and
"garbage". -/
theorem c10_no_token_no_digit_fails (s : String) (nowMicros : Nat)
    (hdig : ∀ c ∈ s.data, c.isDigit = false)
    (hnow : containsSub "now".data (pyLower s.data) = false)
    (hdue : containsSub "due".data (pyLower s.data) = false) :
    parse_departure_time s nowMicros = PyResult.val none ∧
    parse_departure_time "" nowMicros = PyResult.val none ∧
    parse_departure_time "garbage" nowMicros = PyResult.val none := by
  refine ⟨?_, by rw [parse_eq_simplified]; decide, by rw [parse_eq_simplified]; decide⟩
  have hnow' : containsSub "now".data (pyLower (pyStrip s.data)) = false := by
    cases hx : containsSub "now".data (pyLower (pyStrip s.data))
    · rfl
    · rw [containsSub_of_strip hx] at hnow
      exact Bool.noConfusion hnow
  have hdue' : containsSub "due".data (pyLower (pyStrip s.data)) = false := by
    cases hx : containsSub "due".data (pyLower (pyStrip s.data))
    · rfl
    · rw [containsSub_of_strip hx] at hdue
      exact Bool.noConfusion hdue
  have hrun : firstDigitRun (pyLower (pyStrip s.data)) = none := by
    rw [firstDigitRun_eq_none_iff]
    intro c hc
    obtain ⟨c₀, hc₀, rfl⟩ := List.mem_map.mp hc
    rw [isDigit_toLower]
    exact hdig c₀ (mem_pyStrip hc₀)
  rw [parse_eq_simplified]
  simp only [parse_simplified]
  rw [if_neg (by simp [hnow', hdue']), hrun]

/-- Witness for C10 at the concrete input "garbage". -/
theorem c10_witness :
    parse_departure_time "garbage" 0 = PyResult.val none :=
  (c10_no_token_no_digit_fails "garbage" 0 (by decide) (by decide) (by decide)).1

/-- C4: each output sequence of the classify-and-rank computation is the
first-10 prefix of the stable full sort of its partition, is sorted ascending
by `minutes`, keeps ties in original input order (filtering by any fixed
`minutes` value yields a prefix of the same filtering of the unsorted
partition), and has at most 10 entries; with 15 records all toward-hub the
toward-hub output has exactly 10. -/
theorem c4_sorted_stable_truncated (all : List Departure) :
    (classify_and_rank all).1 = (stableSortSpec (perthPartition all)).take 10 ∧
    (classify_and_rank all).2 = (stableSortSpec (southPartition all)).take 10 ∧
    List.Pairwise (fun a b : Departure => a.minutes ≤ b.minutes) (classify_and_rank all).1 ∧
    List.Pairwise (fun a b : Departure => a.minutes ≤ b.minutes) (classify_and_rank all).2 ∧
    (classify_and_rank all).1.length ≤ 10 ∧
    (classify_and_rank all).2.length ≤ 10 ∧
    (∀ m : Int, (classify_and_rank all).1.filter (fun d => d.minutes == m) <+:
        (perthPartition all).filter (fun d => d.minutes == m)) ∧
    (∀ m : Int, (classify_and_rank all).2.filter (fun d => d.minutes == m) <+:
        (southPartition all).filter (fun d => d.minutes == m)) ∧
    (all.length = 15 → (∀ d ∈ all, isPerthBound d = true) →
        (classify_and_rank all).1.length = 10) := by
  have hcp : (classify_and_rank all).1 = ((perthPartition all).mergeSort leMin).take 10 := rfl
  have hcs : (classify_and_rank all).2 = ((southPartition all).mergeSort leMin).take 10 := rfl
  have hsortp : List.Pairwise (fun a b : Departure => a.minutes ≤ b.minutes)
      ((perthPartition all).mergeSort leMin) :=
    (List.sorted_mergeSort leMin_trans leMin_total (perthPartition all)).imp
      (fun h => by simpa [leMin] using h)
  have hsorts : List.Pairwise (fun a b : Departure => a.minutes ≤ b.minutes)
      ((southPartition all).mergeSort leMin) :=
    (List.sorted_mergeSort leMin_trans leMin_total (southPartition all)).imp
      (fun h => by simpa [leMin] using h)
  refine ⟨?_, ?_, ?_, ?_, ?_, ?_, ?_, ?_, ?_⟩
  · rw [hcp, mergeSort_eq_stableSortSpec]
  · rw [hcs, mergeSort_eq_stableSortSpec]
  · rw [hcp]
    exact List.Pairwise.sublist (List.take_sublist _ _) hsortp
  · rw [hcs]
    exact List.Pairwise.sublist (List.take_sublist _ _) hsorts
  · rw [hcp, List.length_take]
    exact Nat.min_le_left _ _
  · rw [hcs, List.length_take]
    exact Nat.min_le_left _ _
  · intro m
    rw [hcp]
    have h1 := ( List.take_prefix 10 ((perthPartition all).mergeSort leMin)).filter
      (fun d => d.minutes == m)
    rwa [mergeSort_filter_minutes] at h1
  · intro m
    rw [hcs]
    have h1 := ( List.take_prefix 10 ((southPartition all).mergeSort leMin)).filter
      (fun d => d.minutes == m)
    rwa [mergeSort_filter_minutes] at h1
  · intro h15 hall
    have hpp : perthPartition all = all :=
      List.filter_eq_self.mpr (fun d hd => hall d hd)
    rw [hcp, hpp, List.length_take, List.length_mergeSort, h15]
    decide

/-- Witness for C4: fifteen identical toward-hub records give a toward-hub
output of exactly 10 entries. -/
theorem c4_witness : (classify_and_rank ex15).1.length = 10 :=
  (c4_sorted_stable_truncated ex15).2.2.2.2.2.2.2.2 (by decide) (by decide)

/-- C5: membership in the toward-hub partition is exactly the case-insensitive
substring test of "perth" against the destination, membership in the
away-from-hub partition is exactly its failure, and every kept record lands in
one partition and not the other. -/
theorem c5_partition_by_hub_token (all : List Departure) (d : Departure) (hd : d ∈ all) :
    (d ∈ perthPartition all ↔ containsSub "perth".data (pyLower d.destination.data) = true) ∧
    (d ∈ southPartition all ↔ containsSub "perth".data (pyLower d.destination.data) = false) ∧
    ((d ∈ perthPartition all ∧ d ∉ southPartition all) ∨
     (d ∈ southPartition all ∧ d ∉ perthPartition all)) := by
  have hp : d ∈ perthPartition all ↔ isPerthBound d = true := by
    simp [perthPartition, List.mem_filter, hd]
  have hs : d ∈ southPartition all ↔ isPerthBound d = false := by
    simp [southPartition, List.mem_filter, hd]
  refine ⟨hp, hs, ?_⟩
  cases hb : isPerthBound d
  · refine Or.inr ⟨hs.mpr hb, fun hc => ?_⟩
    rw [hp.mp hc] at hb
    exact Bool.noConfusion hb
  · refine Or.inl ⟨hp.mpr hb, fun hc => ?_⟩
    rw [hs.mp hc] at hb
    exact Bool.noConfusion hb

/-- Witness for C5 on a concrete two-record list. -/
theorem c5_witness :
    (exPerthDep ∈ perthPartition [exPerthDep, exArmadaleDep] ↔
      containsSub "perth".data (pyLower exPerthDep.destination.data) = true) ∧
    (exPerthDep ∈ southPartition [exPerthDep, exArmadaleDep] ↔
      containsSub "perth".data (pyLower exPerthDep.destination.data) = false) ∧
    ((exPerthDep ∈ perthPartition [exPerthDep, exArmadaleDep] ∧
      exPerthDep ∉ southPartition [exPerthDep, exArmadaleDep]) ∨
     (exPerthDep ∈ southPartition [exPerthDep, exArmadaleDep] ∧
      exPerthDep ∉ perthPartition [exPerthDep, exArmadaleDep])) :=
  c5_partition_by_hub_token [exPerthDep, exArmadaleDep] exPerthDep (by decide)

/-- C7: a raw row with an empty destination, or whose time string does not
normalize to a number, produces no departure; and every departure in either
output list of the endpoint has a non-empty destination and carries the
minutes value its preserved time string normalizes to. -/
theorem c7_invalid_rows_excluded :
    (∀ (r : RawRow) (ln : String) (nm : Nat), r.destination_text = "" →
        processRow r ln nm = none) ∧
    (∀ (r : RawRow) (ln : String) (nm : Nat),
        (∀ m : Int, parse_departure_time r.time_text nm ≠ PyResult.val (some m)) →
        processRow r ln nm = none) ∧
    (∀ (rows : List RawRow) (nm : Nat) (iso : String) (d : Departure),
        d ∈ (get_departures (FetchOutcome.ok rows) nm iso).perth ∨
        d ∈ (get_departures (FetchOutcome.ok rows) nm iso).south →
        d.destination ≠ "" ∧
        ∃ m : Int, parse_departure_time d.time_display nm = PyResult.val (some m) ∧
          d.minutes = m) := by
  refine ⟨?_, ?_, ?_⟩
  · intro r ln nm h
    unfold processRow
    cases hq : parse_departure_time r.time_text nm with
    | val v =>
      cases v with
      | some m => simp [h]
      | none => rfl
    | exn => rfl
  · intro r ln nm h
    unfold processRow
    cases hq : parse_departure_time r.time_text nm with
    | val v =>
      cases v with
      | some m => exact absurd hq (h m)
      | none => rfl
    | exn => rfl
  · intro rows nm iso d hd
    have hall : d ∈ processRows rows "Queens Park" nm := by
      simp only [get_departures, scrape_transperth, classify_and_rank] at hd
      rcases hd with hd | hd
      · have h2 := List.mem_mergeSort.mp (List.mem_of_mem_take hd)
        exact (List.mem_filter.mp h2).1
      · have h2 := List.mem_mergeSort.mp (List.mem_of_mem_take hd)
        exact (List.mem_filter.mp h2).1
    obtain ⟨r, hr, hpr⟩ := List.mem_filterMap.mp hall
    unfold processRow at hpr
    cases hq : parse_departure_time r.time_text nm with
    | val v =>
      cases v with
      | some m =>
        rw [hq] at hpr
        simp only at hpr
        by_cases hdest : r.destination_text ≠ ""
        · rw [if_pos hdest] at hpr
          have hdr := Option.some.inj hpr
          rw [← hdr]
          exact ⟨hdest, m, hq, rfl⟩
        · rw [if_neg hdest] at hpr
          exact Option.noConfusion hpr
      | none =>
        rw [hq] at hpr
        exact Option.noConfusion hpr
    | exn =>
      rw [hq] at hpr
      exact Option.noConfusion hpr

/-- Witness for C7: a row with valid time but empty destination is dropped. -/
theorem c7_witness :
    processRow exEmptyDestRow "Queens Park" 0 = none :=
  c7_invalid_rows_excluded.1 exEmptyDestRow "Queens Park" 0 rfl

/-- C8: the classify-and-rank computation and the whole request handler are
deterministic: two runs on equal inputs (records, fetch outcome, clock,
timestamp) produce equal outputs. -/
theorem c8_two_run_determinism (all₁ all₂ : List Departure) (o₁ o₂ : FetchOutcome)
    (n₁ n₂ : Nat) (iso₁ iso₂ : String)
    (hall : all₁ = all₂) (ho : o₁ = o₂) (hn : n₁ = n₂) (hiso : iso₁ = iso₂) :
    classify_and_rank all₁ = classify_and_rank all₂ ∧
    get_departures o₁ n₁ iso₁ = get_departures o₂ n₂ iso₂ := by
  subst hall
  subst ho
  subst hn
  subst hiso
  exact ⟨rfl, rfl⟩

/-- Witness for C8 at concrete inputs. -/
theorem c8_witness :
    classify_and_rank [exPerthDep] = classify_and_rank [exPerthDep] ∧
    get_departures FetchOutcome.noTable 0 "t" = get_departures FetchOutcome.noTable 0 "t" :=
  c8_two_run_determinism [exPerthDep] [exPerthDep] FetchOutcome.noTable FetchOutcome.noTable
    0 0 "t" "t" rfl rfl rfl rfl

end TrainDepartures
